import Mathlib

/-!
Verification development for a repository containing two small Unix-style
utilities written in Rust:

* `rcat` (src/rcat/src/main.rs): concatenate files to standard output, with
  optional line numbering (`-n`) and end-of-line markers (`-E`).
* `rtouch` (src/rtouch/src/main.rs): update file access/modification times,
  with flags `-a`, `-m`, `-c`, `-t <STRING>`, `-r <PATH>`.

The embedding models file contents as lists of bytes (`List Nat`), instants
as integer milliseconds since the Unix epoch, and the filesystem as a partial
map from path strings to file records.
-/

set_option maxRecDepth 8000

deriving instance DecidableEq for Except

namespace GnuLike

/-! ### rcat: byte-level model of `BufRead::lines` -/

/-- Bytes of an ASCII / UTF-8 string literal, used to state concrete
scenarios at the byte level. -/
def strBytes (s : String) : List Nat :=
  s.toList.map Char.toNat

/-- Split a byte stream at every LF (0x0A) byte, mirroring how
`BufRead::read_until(b'\n')` partitions the stream.  The result always has
one more chunk than the number of LF bytes; the final chunk is the (possibly
empty) run of bytes after the last LF. -/
def splitNl : List Nat → List (List Nat)
  | [] => [[]]
  | b :: rest =>
    if b = 10 then [] :: splitNl rest
    else
      match splitNl rest with
      | [] => [[b]]
      | c :: cs => (b :: c) :: cs

/-- Remove one trailing CR (0x0D), as `Lines::next` does after popping the
LF terminator of an LF-terminated line. -/
def stripCR (l : List Nat) : List Nat :=
  if l.getLast? = some 13 then l.dropLast else l

/-- Continuation byte test for UTF-8 validation (0x80..=0xBF). -/
def isCont (b : Nat) : Bool := decide (128 ≤ b ∧ b ≤ 191)

/-- UTF-8 validity of a byte sequence, following the standard (RFC 3629)
table that Rust's `str::from_utf8` implements: no overlong encodings, no
surrogates (0xED leads), nothing above U+10FFFF (0xF4 leads). -/
def validUtf8 : List Nat → Bool
  | [] => true
  | b :: rest =>
    if b < 128 then validUtf8 rest
    else if b < 194 then false
    else if b < 224 then
      match rest with
      | b2 :: r2 => isCont b2 && validUtf8 r2
      | [] => false
    else if b < 240 then
      match rest with
      | b2 :: b3 :: r3 =>
        (if b = 224 then decide (160 ≤ b2 ∧ b2 ≤ 191)
         else if b = 237 then decide (128 ≤ b2 ∧ b2 ≤ 159)
         else isCont b2) && isCont b3 && validUtf8 r3
      | _ => false
    else if b < 245 then
      match rest with
      | b2 :: b3 :: b4 :: r4 =>
        (if b = 240 then decide (144 ≤ b2 ∧ b2 ≤ 191)
         else if b = 244 then decide (128 ≤ b2 ∧ b2 ≤ 143)
         else isCont b2) && isCont b3 && isCont b4 && validUtf8 r4
      | _ => false
    else false

/-- The raw line chunks `Lines` yields from a byte stream, before UTF-8
decoding: chunks are split at LF; LF-terminated chunks lose a trailing CR;
a final chunk with no LF terminator is yielded as-is when non-empty and
dropped when empty (EOF). -/
def rustLines (content : List Nat) : List (List Nat) :=
  let cs := splitNl content
  (cs.dropLast.map stripCR) ++
    (match cs.getLast? with
     | some l => if l = [] then [] else [l]
     | none => [])

/-- Model of `file_to_lines` (src/rcat/src/main.rs:70-75): each raw line is
decoded as UTF-8; a line whose bytes fail to decode (an `Err` from the
`lines()` iterator) is replaced by the empty string via
`unwrap_or_default()`.  Validating the stripped chunk is equivalent to
Rust's validate-then-strip order because CR and LF are ASCII and cannot
complete or start a multi-byte sequence. -/
def file_to_lines (content : List Nat) : List (List Nat) :=
  (rustLines content).map (fun l => if validUtf8 l then l else [])

/-- Decimal digit bytes of a natural number, most significant first
(the bytes `Display` for integers produces).  Structural fuel recursion so
that the kernel can evaluate it; `n + 1` fuel always suffices. -/
def natDigitsAux : Nat → Nat → List Nat
  | 0, _ => []
  | fuel + 1, n =>
    if n < 10 then [48 + n]
    else natDigitsAux fuel (n / 10) ++ [48 + n % 10]

/-- Decimal digit bytes of a natural number. -/
def natDigits (n : Nat) : List Nat := natDigitsAux (n + 1) n

/-- Bytes of `format!` with a width-6 right-aligned integer field, as in
the numbering branch of rcat's main loop (`{:6}`): the decimal digits
padded on the left with spaces to width 6. -/
def pad6 (n : Nat) : List Nat :=
  List.replicate (6 - (natDigits n).length) 32 ++ natDigits n

/-- One output line of rcat's main loop (src/rcat/src/main.rs:32-43),
without the trailing newline added by `println!`: optional
`format!` number prefix `{:6} ` for the 1-based index, the line itself,
and an optional `$` (0x24) end marker. -/
def renderCore (number showEnds : Bool) (i : Nat) (line : List Nat) : List Nat :=
  (if number then pad6 (i + 1) ++ [32] else []) ++ line ++
    (if showEnds then [36] else [])

/-- All rendered output lines, numbering from index `i` (the loop uses
`enumerate()` starting at 0). -/
def renderAll (number showEnds : Bool) : Nat → List (List Nat) → List (List Nat)
  | _, [] => []
  | i, l :: ls => renderCore number showEnds i l :: renderAll number showEnds (i + 1) ls

/-- The bytes rcat writes to standard output for one readable file:
each rendered line followed by the newline `println!` appends. -/
def catOutput (number showEnds : Bool) (content : List Nat) : List Nat :=
  ((renderAll number showEnds 0 (file_to_lines content)).map (fun l => l ++ [10])).flatten

/-- The lines of an output byte stream (chunks before each LF). -/
def outputLines (o : List Nat) : List (List Nat) :=
  (splitNl o).dropLast

/-- Error kinds distinguished by the two programs
(`std::io::ErrorKind` values they match on). -/
inductive EKind
  | notFound
  | permissionDenied
  | unsupported
  | invalidInput
  | other
deriving DecidableEq

/-- Per-file behaviour of rcat's main loop (src/rcat/src/main.rs:28-60):
on a successful open, print the rendered lines and neither report nor exit;
on an open failure, print a diagnostic naming the path and exit with
status 1.  Result: (stdout bytes, stderr messages, exited?). -/
def rcatFileRun (number showEnds : Bool) (path : String)
    (openResult : Except EKind (List Nat)) : List Nat × List String × Bool :=
  match openResult with
  | .ok content => (catOutput number showEnds content, [], false)
  | .error .notFound => ([], ["File not found: " ++ path], true)
  | .error .permissionDenied => ([], ["Permission denied: " ++ path], true)
  | .error _ => ([], ["Error opening file: " ++ path], true)

/-! ### rtouch: timestamp string parsing (`parse_time`)

`parse_time` (src/rtouch/src/main.rs:128-156) tries six chrono format
strings in order and converts the first successful `DateTime` into a
`SystemTime` by `UNIX_EPOCH + Duration::from_secs(delta.num_seconds() as u64)`.
The parser below models `chrono::DateTime::parse_from_str` for exactly these
format strings over byte lists: numeric fields skip leading whitespace and
read 1 to `width` digits (a signed year with an explicit sign reads
unboundedly many), literals match exactly, a space in the format matches any
(possibly empty) whitespace run, `.%3f` is a literal dot plus exactly three
digits, and `%z` is a sign, two hour digits, an optional colon/whitespace
run, and two minute digits (minutes 00-59), with the total offset required
to be under 24 hours.  Field validation mirrors chrono's `NaiveDate` /
`NaiveTime` ranges (years -262144..=262143, proleptic Gregorian calendar;
the leap-second form `%S` = 60 is outside this model).  Instants are
integer milliseconds since the Unix epoch. -/

/-- Digit byte test (0x30..=0x39). -/
def isDigitB (b : Nat) : Bool := decide (48 ≤ b ∧ b ≤ 57)

/-- Whitespace byte test (the ASCII part of Rust's `char::is_whitespace`). -/
def isWsB (b : Nat) : Bool := decide (b = 32 ∨ (9 ≤ b ∧ b ≤ 13))

/-- Drop leading whitespace, as chrono does before numeric fields and for
whitespace items in the format string. -/
def skipWs (s : List Nat) : List Nat := s.dropWhile isWsB

/-- Read at most `maxW` leading digits, accumulating their value and count
(chrono's `scan::number`). -/
def takeDigits (maxW : Nat) : List Nat → Nat → Nat → Nat × Nat × List Nat
  | [], acc, cnt => (acc, cnt, [])
  | b :: rest, acc, cnt =>
    if cnt < maxW && isDigitB b then
      takeDigits maxW rest (10 * acc + (b - 48)) (cnt + 1)
    else (acc, cnt, b :: rest)

/-- Parse a numeric field: skip leading whitespace; a signed field with an
explicit `+`/`-` reads any number of digits, otherwise at most `width`
digits; at least one digit is required. -/
def parseNum (signed : Bool) (width : Nat) (s : List Nat) : Option (Int × List Nat) :=
  let s1 := skipWs s
  match s1 with
  | 43 :: rest =>
    if signed then
      let (v, cnt, r) := takeDigits rest.length rest 0 0
      if cnt = 0 then none else some ((v : Int), r)
    else
      let (v, cnt, r) := takeDigits width s1 0 0
      if cnt = 0 then none else some ((v : Int), r)
  | 45 :: rest =>
    if signed then
      let (v, cnt, r) := takeDigits rest.length rest 0 0
      if cnt = 0 then none else some (-(v : Int), r)
    else
      let (v, cnt, r) := takeDigits width s1 0 0
      if cnt = 0 then none else some ((v : Int), r)
  | _ =>
    let (v, cnt, r) := takeDigits width s1 0 0
    if cnt = 0 then none else some ((v : Int), r)

/-- Match one exact literal byte. -/
def litB (b : Nat) : List Nat → Option (List Nat)
  | [] => none
  | c :: rest => if c = b then some rest else none

/-- Exactly three digit bytes (`%3f`, chrono `Nanosecond3`), valued in
milliseconds. -/
def exactDigits3 (s : List Nat) : Option (Nat × List Nat) :=
  match s with
  | a :: b :: c :: rest =>
    if isDigitB a && isDigitB b && isDigitB c then
      some (100 * (a - 48) + 10 * (b - 48) + (c - 48), rest)
    else none
  | _ => none

/-- Timezone offset `%z`: sign, two hour digits, an optional run of colons
and whitespace, two minute digits with the first at most 5 (minutes 00-59).
Result in seconds east of UTC. -/
def parseOffsetZ (s : List Nat) : Option (Int × List Nat) :=
  match skipWs s with
  | sign :: h1 :: h2 :: rest =>
    if (sign = 43 || sign = 45) && isDigitB h1 && isDigitB h2 then
      let hours := 10 * (h1 - 48) + (h2 - 48)
      let rest1 := rest.dropWhile (fun b => b = 58 || isWsB b)
      match rest1 with
      | m1 :: m2 :: rest2 =>
        if (decide (48 ≤ m1 ∧ m1 ≤ 53)) && isDigitB m2 then
          let mins := 10 * (m1 - 48) + (m2 - 48)
          let off : Int := ((hours * 3600 + mins * 60 : Nat) : Int)
          some (if sign = 45 then -off else off, rest2)
        else none
      | _ => none
    else none
  | _ => none

/-- Proleptic Gregorian leap year. -/
def isLeap (y : Int) : Bool := (Int.emod y 4 = 0 && Int.emod y 100 ≠ 0) || Int.emod y 400 = 0

/-- Days in a month of the proleptic Gregorian calendar. -/
def daysInMonth (y : Int) (m : Nat) : Nat :=
  if m = 2 then (if isLeap y then 29 else 28)
  else if m = 4 || m = 6 || m = 9 || m = 11 then 30 else 31

/-- Days from the Unix epoch (1970-01-01) to year/month/day in the
proleptic Gregorian calendar (the civil-from-days algorithm chrono's
`NaiveDate` arithmetic realizes). -/
def daysFromCivil (y : Int) (m d : Nat) : Int :=
  let y1 : Int := if m ≤ 2 then y - 1 else y
  let era : Int := Int.ediv y1 400
  let yoe : Int := y1 - era * 400
  let mp : Int := if 2 < m then (m : Int) - 3 else (m : Int) + 9
  let doy : Int := Int.ediv (153 * mp + 2) 5 + (d : Int) - 1
  let doe : Int := yoe * 365 + Int.ediv yoe 4 - Int.ediv yoe 100 + doy
  era * 146097 + doe - 719468

/-- The date/time separator of a format string: the literal `T`, a
whitespace item, or nothing. -/
inductive Sep
  | tChar
  | spaceItem
  | noSep
deriving DecidableEq

/-- One of the six format strings of `parse_time`: the separator and
whether the `.%3f` fraction is present. -/
structure Fmt where
  sep : Sep
  withMillis : Bool
deriving DecidableEq

/-- The fixed ordered format list of `parse_time`
(src/rtouch/src/main.rs:129-139). -/
def formats : List Fmt :=
  [⟨Sep.tChar, true⟩, ⟨Sep.tChar, false⟩,
   ⟨Sep.spaceItem, true⟩, ⟨Sep.spaceItem, false⟩,
   ⟨Sep.noSep, true⟩, ⟨Sep.noSep, false⟩]

/-- Parse a byte string against one format, yielding the denoted instant in
milliseconds since the Unix epoch (UTC) when the whole input matches and
every field is in range. -/
def parseFormat (f : Fmt) (s : List Nat) : Option Int := do
  let (y, s1) ← parseNum true 4 s
  let s2 ← litB 45 s1
  let (mo, s3) ← parseNum false 2 s2
  let s4 ← litB 45 s3
  let (d, s5) ← parseNum false 2 s4
  let s6 ← match f.sep with
    | Sep.tChar => litB 84 s5
    | Sep.spaceItem => some (skipWs s5)
    | Sep.noSep => some s5
  let (hh, s7) ← parseNum false 2 s6
  let s8 ← litB 58 s7
  let (mi, s9) ← parseNum false 2 s8
  let s10 ← litB 58 s9
  let (ss, s11) ← parseNum false 2 s10
  let (ms, s12) ←
    if f.withMillis then do
      let s11a ← litB 46 s11
      exactDigits3 s11a
    else pure (0, s11)
  let (off, s13) ← parseOffsetZ s12
  if s13 = [] ∧ -262144 ≤ y ∧ y ≤ 262143 ∧
      1 ≤ mo ∧ mo ≤ 12 ∧ 1 ≤ d ∧ d ≤ (daysInMonth y mo.toNat : Int) ∧
      hh ≤ 23 ∧ mi ≤ 59 ∧ ss ≤ 59 ∧ -86400 < off ∧ off < 86400 then
    some ((daysFromCivil y mo.toNat d.toNat * 86400 +
           hh * 3600 + mi * 60 + ss) * 1000 + (ms : Int) - off * 1000)
  else none

/-- `TimeDelta::num_seconds`: whole seconds of a millisecond amount,
truncated toward zero. -/
def numSecondsTrunc (ms : Int) : Int :=
  if 0 ≤ ms then ((ms.toNat / 1000 : Nat) : Int)
  else -(((-ms).toNat / 1000 : Nat) : Int)

/-- The `SystemTime` (modelled as milliseconds since the epoch) that
`parse_time` builds from a matched instant: the whole-second count is cast
`as u64` (wrapping modulo 2^64) and added to `UNIX_EPOCH`. -/
def stResultMs (ms : Int) : Nat :=
  1000 * (Int.emod (numSecondsTrunc ms) (2 ^ 64)).toNat

/-- The trial loop of `parse_time`: the first matching format wins;
`DateTime::from_timestamp(0, 0)` always succeeds, so a match returns
immediately. -/
def tryFormats : List Fmt → List Nat → Except Unit Nat
  | [], _ => Except.error ()
  | f :: fl, s =>
    match parseFormat f s with
    | some ms => Except.ok (stResultMs ms)
    | none => tryFormats fl s

/-- Model of `parse_time` (src/rtouch/src/main.rs:128-156).  The error case
carries no data; the source builds an `ErrorKind::InvalidInput` error with
the message given in `parseTimeErrMsg`. -/
def parse_time (s : String) : Except Unit Nat :=
  tryFormats formats (strBytes s)

/-- The instant (in milliseconds) denoted by the first format of the trial
list that matches, if any. -/
def firstMatch (s : String) : Option Int :=
  formats.findSome? (fun f => parseFormat f (strBytes s))

/-- The message of the `InvalidInput` error `parse_time` returns. -/
def parseTimeErrMsg : String := "Unsupported date format"

/-! ### rtouch: filesystem model and main pipeline

`SystemTime` values are modelled as natural-number milliseconds since the
Unix epoch; the filesystem is a partial map from path strings to file
records carrying content, both timestamps, and permission bits.  `File::create`
is modelled as always succeeding on a missing path. -/

/-- Model of `std::fs::FileTimes`: an optional new access and modification
time; a field left `none` is not touched by `File::set_times`. -/
structure FileTimes where
  accessed : Option Nat
  modified : Option Nat
deriving DecidableEq

/-- `FileTimes::new()`: neither time set. -/
def FileTimes.new : FileTimes := ⟨none, none⟩

/-- `FileTimes::set_accessed`. -/
def FileTimes.set_accessed (ft : FileTimes) (t : Nat) : FileTimes :=
  { ft with accessed := some t }

/-- `FileTimes::set_modified`. -/
def FileTimes.set_modified (ft : FileTimes) (t : Nat) : FileTimes :=
  { ft with modified := some t }

/-- The parsed command line of rtouch (the `Args` struct,
src/rtouch/src/main.rs:17-41).  clap enforces the `-a`/`-m` and
`-t`/`-r` mutual exclusions before `main` proceeds. -/
structure Args where
  update_access_only : Bool
  no_create : Bool
  update_modification_only : Bool
  reference_file : Option String
  time : Option String
  files : List String
deriving DecidableEq

/-- A file in the model filesystem: content bytes, the two timestamps
(milliseconds), and whether opening for read / write succeeds. -/
structure FsFile where
  content : List Nat
  accessed : Nat
  modified : Nat
  readable : Bool
  writable : Bool
deriving DecidableEq

/-- The model filesystem: a partial map from paths to files. -/
def FS : Type := String → Option FsFile

/-- Point update of the filesystem. -/
def updFS (fs : FS) (p : String) (f : FsFile) : FS :=
  fun q => if q = p then some f else fs q

/-- Effect of `File::set_times` on a file: each timestamp that the
`FileTimes` value carries is overwritten, the other is left unchanged. -/
def set_times (f : FsFile) (t : FileTimes) : FsFile :=
  { f with accessed := t.accessed.getD f.accessed,
           modified := t.modified.getD f.modified }

/-- Model of `parse_reference` (src/rtouch/src/main.rs:166-181): open the
reference file, read its metadata, and build a fresh `FileTimes` carrying
only the fields selected by the `-a`/`-m` flags (both when neither flag is
set). -/
def parse_reference (fs : FS) (path : String) (args : Args) : Except EKind FileTimes :=
  match fs path with
  | none => Except.error EKind.notFound
  | some f =>
    if f.readable = false then Except.error EKind.permissionDenied
    else if args.update_access_only then
      Except.ok (FileTimes.new.set_accessed f.accessed)
    else if args.update_modification_only then
      Except.ok (FileTimes.new.set_modified f.modified)
    else
      Except.ok ((FileTimes.new.set_accessed f.accessed).set_modified f.modified)

/-- The stderr message for a reference-file failure
(src/rtouch/src/main.rs:76-92). -/
def refErrMsg (k : EKind) : String :=
  match k with
  | EKind.notFound => "Error parsing reference file: File not found"
  | EKind.permissionDenied => "Error parsing reference file: Permission denied"
  | EKind.unsupported => "Error parsing reference file: Unsupported operation"
  | _ => "Error parsing reference file: other"

/-- Resolution of the target `FileTimes` in `main`
(src/rtouch/src/main.rs:44-94), performed once before the per-file loop:
start from both fields set to the current time; an explicit `-t` string
that parses overwrites the flagged fields (both when no flag); a `-t`
parse failure is reported and leaves the current-time default; a `-r`
reference replaces the value wholesale on success and is reported on
failure.  Returns the resolved times and the stderr messages emitted. -/
def resolveTimes (now : Nat) (args : Args) (fs : FS) : FileTimes × List String :=
  let ft := (FileTimes.new.set_accessed now).set_modified now
  match args.time with
  | some t =>
    match parse_time t with
    | Except.ok st =>
      if args.update_access_only then (ft.set_accessed st, [])
      else if args.update_modification_only then (ft.set_modified st, [])
      else ((ft.set_accessed st).set_modified st, [])
    | Except.error _ => (ft, ["Error parsing time: " ++ parseTimeErrMsg])
  | none =>
    match args.reference_file with
    | some r =>
      match parse_reference fs r args with
      | Except.ok times => (times, [])
      | Except.error k => (ft, [refErrMsg k])
    | none => (ft, [])

/-- Model of `update_file` (src/rtouch/src/main.rs:192-212): open the path
for writing and apply `set_times`; a missing path is created empty (with
creation-default stamps `cstamp`) unless `no_create` is set, and the
source's recursive call then re-opens the just-created writable file and
applies the times; `no_create` on a missing path is a silent no-op.  Other
open failures propagate to the caller. -/
def update_file (fs : FS) (path : String) (t : FileTimes) (args : Args)
    (cstamp : Nat) : FS × Option EKind :=
  match fs path with
  | some f =>
    if f.writable then (updFS fs path (set_times f t), none)
    else (fs, some EKind.permissionDenied)
  | none =>
    if args.no_create then (fs, none)
    else
      let nf : FsFile := ⟨[], cstamp, cstamp, true, true⟩
      (updFS fs path (set_times nf t), none)

/-- The stderr message of the per-file loop for an `update_file` failure
(src/rtouch/src/main.rs:100-113). -/
def updErrMsg (k : EKind) : String :=
  match k with
  | EKind.permissionDenied => "Error updating file: Permission denied"
  | EKind.unsupported => "Error updating file: Unsupported operation"
  | _ => "Error updating file: other"

/-- The filesystem after the per-file loop of `main`
(src/rtouch/src/main.rs:96-115): each named file is updated in order with
the one resolved `FileTimes` value. -/
def runFilesFS (t : FileTimes) (args : Args) (cstamp : Nat) : List String → FS → FS
  | [], fs => fs
  | p :: ps, fs => runFilesFS t args cstamp ps (update_file fs p t args cstamp).1

/-- The stderr messages of the per-file loop. -/
def runFilesMsgs (t : FileTimes) (args : Args) (cstamp : Nat) : List String → FS → List String
  | [], _ => []
  | p :: ps, fs =>
    (match (update_file fs p t args cstamp).2 with
     | some k => [updErrMsg k]
     | none => []) ++ runFilesMsgs t args cstamp ps (update_file fs p t args cstamp).1

/-- Model of rtouch `main` (src/rtouch/src/main.rs:44-117): read the clock
once, resolve the target times once, then update each named file.  Returns
the final filesystem and all stderr messages. -/
def rtouchMain (now cstamp : Nat) (args : Args) (fs : FS) : FS × List String :=
  let r := resolveTimes now args fs
  (runFilesFS r.1 args cstamp args.files fs,
   r.2 ++ runFilesMsgs r.1 args cstamp args.files fs)

/-! ### Helper lemmas about line splitting and rendering -/

theorem map_eq_self_of {α : Type} (f : α → α) :
    ∀ ls : List α, (∀ a ∈ ls, f a = a) → ls.map f = ls := by
  intro ls h
  induction ls with
  | nil => rfl
  | cons a as ih =>
    simp only [List.map_cons]
    rw [h a (List.mem_cons_self a as), ih (fun b hb => h b (List.mem_cons_of_mem a hb))]

theorem splitNl_ne_nil : ∀ l : List Nat, splitNl l ≠ [] := by
  intro l
  induction l with
  | nil => simp [splitNl]
  | cons b rest ih =>
    simp only [splitNl]
    split
    · simp
    · split <;> simp

theorem splitNl_append10 :
    ∀ x r : List Nat, (∀ b ∈ x, b ≠ 10) →
      splitNl (x ++ 10 :: r) = x :: splitNl r := by
  intro x
  induction x with
  | nil => intro r _; simp [splitNl]
  | cons a x' ih =>
    intro r h
    have ha : a ≠ 10 := h a (List.mem_cons_self a x')
    have h' : ∀ b ∈ x', b ≠ 10 := fun b hb => h b (List.mem_cons_of_mem a hb)
    simp only [List.cons_append, splitNl, if_neg ha, List.append_eq]
    rw [ih r h']

theorem splitNl_flattenNl :
    ∀ ls : List (List Nat), (∀ l ∈ ls, ∀ b ∈ l, b ≠ 10) →
      splitNl ((ls.map (fun l => l ++ [10])).flatten) = ls ++ [[]] := by
  intro ls h
  induction ls with
  | nil => simp [splitNl]
  | cons l ls' ih =>
    have hl : ∀ b ∈ l, b ≠ 10 := h l (List.mem_cons_self l ls')
    have h' : ∀ m ∈ ls', ∀ b ∈ m, b ≠ 10 := fun m hm => h m (List.mem_cons_of_mem l hm)
    simp only [List.map_cons, List.flatten_cons, List.append_assoc, List.singleton_append]
    rw [splitNl_append10 l _ hl, ih h']
    simp

theorem splitNl_no10 :
    ∀ content : List Nat, ∀ c ∈ splitNl content, ∀ b ∈ c, b ≠ 10 := by
  intro content
  induction content with
  | nil =>
    intro c hc
    simp [splitNl] at hc
    simp [hc]
  | cons a rest ih =>
    intro c hc
    by_cases ha : a = 10
    · rw [splitNl, if_pos ha] at hc
      rcases List.mem_cons.mp hc with h1 | h1
      · simp [h1]
      · exact ih c h1
    · rw [splitNl, if_neg ha] at hc
      rcases hrest : splitNl rest with _ | ⟨c0, cs⟩
      · rw [hrest] at hc
        simp at hc
        intro b hb
        rw [hc] at hb
        simp at hb
        rw [hb]
        exact ha
      · rw [hrest] at hc
        rcases List.mem_cons.mp hc with h1 | h1
        · intro b hb
          rw [h1] at hb
          rcases List.mem_cons.mp hb with h2 | h2
          · rw [h2]; exact ha
          · exact ih c0 (hrest ▸ List.mem_cons_self c0 cs) b h2
        · exact ih c (hrest ▸ List.mem_cons_of_mem c0 h1)

theorem stripCR_eq_self {l : List Nat} (h : l.getLast? ≠ some 13) : stripCR l = l := by
  rw [stripCR, if_neg h]

theorem rustLines_flattenNl
    (ls : List (List Nat))
    (h10 : ∀ l ∈ ls, ∀ b ∈ l, b ≠ 10)
    (h13 : ∀ l ∈ ls, l.getLast? ≠ some 13) :
    rustLines ((ls.map (fun l => l ++ [10])).flatten) = ls := by
  rw [rustLines]
  rw [splitNl_flattenNl ls h10]
  rw [List.dropLast_concat, List.getLast?_concat,
    map_eq_self_of stripCR ls (fun l hl => stripCR_eq_self (h13 l hl))]
  simp

theorem file_to_lines_of_valid
    (ls : List (List Nat))
    (h10 : ∀ l ∈ ls, ∀ b ∈ l, b ≠ 10)
    (h13 : ∀ l ∈ ls, l.getLast? ≠ some 13)
    (hv : ∀ l ∈ ls, validUtf8 l = true) :
    file_to_lines ((ls.map (fun l => l ++ [10])).flatten) = ls := by
  rw [file_to_lines, rustLines_flattenNl ls h10 h13]
  exact map_eq_self_of _ ls (fun l hl => by rw [if_pos (hv l hl)])

theorem renderAll_plain : ∀ (i : Nat) (ls : List (List Nat)),
    renderAll false false i ls = ls := by
  intro i ls
  induction ls generalizing i with
  | nil => rfl
  | cons l ls' ih => simp [renderAll, renderCore, ih]

theorem natDigitsAux_bounds :
    ∀ fuel n : Nat, ∀ b ∈ natDigitsAux fuel n, 48 ≤ b ∧ b ≤ 57 := by
  intro fuel
  induction fuel with
  | zero => intro n b hb; simp [natDigitsAux] at hb
  | succ f ih =>
    intro n b hb
    rw [natDigitsAux] at hb
    split at hb
    · next h =>
      simp at hb
      omega
    · next h =>
      rcases List.mem_append.mp hb with h1 | h1
      · exact ih _ b h1
      · simp at h1
        have : n % 10 < 10 := Nat.mod_lt n (by omega)
        omega

theorem pad6_no10 : ∀ n : Nat, ∀ b ∈ pad6 n, b ≠ 10 := by
  intro n b hb
  rw [pad6] at hb
  rcases List.mem_append.mp hb with h1 | h1
  · have := List.eq_of_mem_replicate h1
    omega
  · have := natDigitsAux_bounds _ _ b h1
    omega

theorem renderCore_no10 (number showEnds : Bool) (i : Nat) (l : List Nat)
    (hl : ∀ b ∈ l, b ≠ 10) : ∀ b ∈ renderCore number showEnds i l, b ≠ 10 := by
  intro b hb
  rw [renderCore] at hb
  rcases List.mem_append.mp hb with h1 | h1
  · rcases List.mem_append.mp h1 with h2 | h2
    · split at h2
      · rcases List.mem_append.mp h2 with h3 | h3
        · exact pad6_no10 _ b h3
        · simp at h3; omega
      · simp at h2
    · exact hl b h2
  · split at h1
    · simp at h1; omega
    · simp at h1

theorem renderAll_no10 (number showEnds : Bool) :
    ∀ (ls : List (List Nat)) (i : Nat),
      (∀ l ∈ ls, ∀ b ∈ l, b ≠ 10) →
      ∀ c ∈ renderAll number showEnds i ls, ∀ b ∈ c, b ≠ 10 := by
  intro ls
  induction ls with
  | nil => intro i _ c hc; simp [renderAll] at hc
  | cons l ls' ih =>
    intro i h c hc
    rcases List.mem_cons.mp hc with h1 | h1
    · rw [h1]
      exact renderCore_no10 number showEnds i l (h l (List.mem_cons_self l ls'))
    · exact ih (i + 1) (fun m hm => h m (List.mem_cons_of_mem l hm)) c h1

theorem rustLines_no10 :
    ∀ content : List Nat, ∀ c ∈ rustLines content, ∀ b ∈ c, b ≠ 10 := by
  intro content c hc
  rw [rustLines] at hc
  rcases List.mem_append.mp hc with h1 | h1
  · rcases List.mem_map.mp h1 with ⟨c0, hc0, hstrip⟩
    have hmem : c0 ∈ splitNl content := List.dropLast_subset _ hc0
    intro b hb
    rw [← hstrip] at hb
    rw [stripCR] at hb
    split at hb
    · exact splitNl_no10 content c0 hmem b (List.dropLast_subset _ hb)
    · exact splitNl_no10 content c0 hmem b hb
  · split at h1
    · next l hlast =>
      split at h1
      · simp at h1
      · simp at h1
        rw [h1]
        rcases List.mem_getLast?_eq_getLast (Option.mem_def.mpr hlast) with ⟨hne, heq⟩
        exact heq ▸ splitNl_no10 content _ (List.getLast_mem hne)
    · simp at h1

theorem file_to_lines_no10 :
    ∀ content : List Nat, ∀ c ∈ file_to_lines content, ∀ b ∈ c, b ≠ 10 := by
  intro content c hc
  rw [file_to_lines] at hc
  rcases List.mem_map.mp hc with ⟨c0, hc0, hf⟩
  intro b hb
  rw [← hf] at hb
  split at hb
  · exact rustLines_no10 content c0 hc0 b hb
  · simp at hb

theorem outputLines_catOutput (number showEnds : Bool) (content : List Nat) :
    outputLines (catOutput number showEnds content) =
      renderAll number showEnds 0 (file_to_lines content) := by
  rw [outputLines, catOutput]
  rw [splitNl_flattenNl _ (renderAll_no10 number showEnds _ 0 (file_to_lines_no10 content))]
  exact List.dropLast_concat

theorem renderAll_getElem (number showEnds : Bool) :
    ∀ (ls : List (List Nat)) (k i : Nat),
      (renderAll number showEnds k ls)[i]? =
        (ls[i]?).map (fun l => renderCore number showEnds (k + i) l) := by
  intro ls
  induction ls with
  | nil => intro k i; simp [renderAll]
  | cons l ls' ih =>
    intro k i
    cases i with
    | zero => simp [renderAll]
    | succ j =>
      simp only [renderAll, List.getElem?_cons_succ]
      rw [ih (k + 1) j]
      have : k + 1 + j = k + (j + 1) := by omega
      rw [this]

/-! ### Helper lemmas about the format-trial loop of `parse_time` -/

theorem tryFormats_findSome :
    ∀ (fl : List Fmt) (s : List Nat) (ms : Int),
      fl.findSome? (fun f => parseFormat f s) = some ms →
      tryFormats fl s = Except.ok (stResultMs ms) := by
  intro fl
  induction fl with
  | nil => intro s ms h; simp [List.findSome?] at h
  | cons f fl' ih =>
    intro s ms h
    rw [tryFormats]
    rcases hp : parseFormat f s with _ | v
    · rw [List.findSome?_cons, hp] at h
      exact ih s ms h
    · rw [List.findSome?_cons, hp] at h
      cases h
      rfl

theorem emod_as_mod (a b : Int) : Int.emod a b = a % b := rfl

theorem ediv_as_div (a b : Int) : Int.ediv a b = a / b := rfl

theorem stResultMs_of_nonneg (ms : Int) (h0 : 0 ≤ ms) (hlt : ms < 1000 * 2 ^ 64) :
    stResultMs ms = 1000 * (ms.toNat / 1000) := by
  rw [stResultMs, numSecondsTrunc, if_pos h0, emod_as_mod]
  have hpow : (2 ^ 64 : Int) = 18446744073709551616 := by norm_num
  rw [hpow] at hlt ⊢
  omega

/-! ### Helper lemmas about `set_times`, `update_file` and the file loop -/

theorem set_times_idem (f : FsFile) (t : FileTimes) :
    set_times (set_times f t) t = set_times f t := by
  rcases t with ⟨a, m⟩
  rcases a <;> rcases m <;> simp [set_times, Option.getD]

theorem set_times_writable (f : FsFile) (t : FileTimes) :
    (set_times f t).writable = f.writable := rfl

theorem update_file_other (fs : FS) (p q : String) (t : FileTimes) (args : Args)
    (cstamp : Nat) (h : q ≠ p) : (update_file fs p t args cstamp).1 q = fs q := by
  rcases hp : fs p with _ | f
  · simp only [update_file, hp]
    split
    · rfl
    · simp only [updFS, if_neg h]
  · simp only [update_file, hp]
    split
    · simp only [updFS, if_neg h]
    · rfl

theorem update_file_here (fs : FS) (p : String) (t : FileTimes) (args : Args)
    (cstamp : Nat) (f : FsFile) (h : fs p = some f) (hw : f.writable = true) :
    (update_file fs p t args cstamp).1 p = some (set_times f t) := by
  simp [update_file, h, hw, updFS]

theorem runFilesFS_fixed (t : FileTimes) (args : Args) (cstamp : Nat) (p : String)
    (g : FsFile) (hw : g.writable = true) (hfix : set_times g t = g) :
    ∀ (l : List String) (fs : FS), fs p = some g →
      runFilesFS t args cstamp l fs p = some g := by
  intro l
  induction l with
  | nil => intro fs h; exact h
  | cons q l' ih =>
    intro fs h
    rw [runFilesFS]
    by_cases hqp : q = p
    · subst hqp
      refine ih _ ?_
      rw [update_file_here fs q t args cstamp g h hw, hfix]
    · refine ih _ ?_
      rw [update_file_other fs q p t args cstamp (fun he => hqp he.symm), h]

theorem runFilesFS_mem (t : FileTimes) (args : Args) (cstamp : Nat) (p : String)
    (f₀ : FsFile) (hw : f₀.writable = true) :
    ∀ (l : List String) (fs : FS), p ∈ l → fs p = some f₀ →
      runFilesFS t args cstamp l fs p = some (set_times f₀ t) := by
  intro l
  induction l with
  | nil => intro fs h; cases h
  | cons q l' ih =>
    intro fs hmem h
    rw [runFilesFS]
    by_cases hqp : q = p
    · subst hqp
      have h1 : (update_file fs q t args cstamp).1 q = some (set_times f₀ t) :=
        update_file_here fs q t args cstamp f₀ h hw
      exact runFilesFS_fixed t args cstamp q (set_times f₀ t)
        (by rw [set_times_writable]; exact hw) (set_times_idem f₀ t) l' _ h1
    · have hmem' : p ∈ l' := by
        rcases List.mem_cons.mp hmem with h1 | h1
        · exact absurd h1.symm hqp
        · exact h1
      refine ih _ hmem' ?_
      rw [update_file_other fs q p t args cstamp (fun he => hqp he.symm), h]

/-! ### Concrete inputs used by witnesses and counterexamples -/

/-- A filesystem with a single writable file `f` with access time 5 and
modification time 7. -/
def wFs : FS := fun p => if p = "f" then some ⟨[], 5, 7, true, true⟩ else none

/-- rtouch invoked as `rtouch -a f`: access-only flag, the default
current-time source. -/
def argsAccessOnly : Args := ⟨true, false, false, none, none, ["f"]⟩

/-- rtouch invoked as `rtouch -a -t 1970-01-01T00:00:01+0000 f`. -/
def argsAccessOnlyT : Args :=
  ⟨true, false, false, none, some ("1970-01-01T00:00:01+0000"), ["f"]⟩

/-- rtouch invoked with an unparsable `-t` string. -/
def argsBadTime : Args := ⟨false, false, false, none, some ("notatime"), ["f"]⟩

/-- rtouch invoked on a missing file, without `--no-create`. -/
def argsPlain : Args := ⟨false, false, false, none, none, ["g"]⟩

/-- rtouch invoked on a missing file with `--no-create`. -/
def argsNoCreate : Args := ⟨false, true, false, none, none, ["g"]⟩

/-- rtouch invoked on the two files `f` and `g`. -/
def argsTwoFiles : Args := ⟨false, false, false, none, none, ["f", "g"]⟩

/-- A filesystem with two writable files `f` (times 5/7) and `g`
(times 1/2). -/
def wFs2 : FS := fun p =>
  if p = "f" then some ⟨[], 5, 7, true, true⟩
  else if p = "g" then some ⟨[], 1, 2, true, true⟩
  else none

/-- The three-line demo file of the spec's concrete scenario. -/
def demoContent : List Nat := strBytes ("a\nbb\nccc\n")

/-! ### The claims -/

/-- C1: the claim states that for every time source, `-a` updates only the
access time leaving the modification time unchanged (and dually for `-m`,
both with neither flag).  The code contradicts this and its own `-a` help
text "Change the access time only": the flags are consulted only inside the
`-t` and `-r` branches (src/rtouch/src/main.rs:52-94), so with the default
current-time source both times are always set to `now`, and with `-t` the
non-flagged field remains set to `now` from line 49 instead of being left
unchanged.  This theorem evaluates the code at failing inputs: `rtouch -a f`
changes the modification time of `f` from 7 to 100, and with `-a -t` the
resolved times update both fields. -/
theorem c1_access_only_still_updates_modification :
    (rtouchMain 100 50 argsAccessOnly wFs).1 ("f") = some ⟨[], 100, 100, true, true⟩ ∧
    (resolveTimes 100 argsAccessOnly wFs).1 = ⟨some 100, some 100⟩ ∧
    (resolveTimes 100 argsAccessOnlyT wFs).1 = ⟨some 1000, some 100⟩ ∧
    (100 : Nat) ≠ 7 := by decide

/-- C2 counterexample: the claim states the output always equals the file's
raw content, but a one-byte file `a` (no trailing newline) prints as `a`
followed by a newline: `println!` re-terminates every line. -/
theorem c2_counterexample :
    catOutput false false [97] = [97, 10] ∧ ([97, 10] : List Nat) ≠ [97] := by decide

/-- C2 amended: with numbering and show-ends disabled, the output equals the
file's raw content exactly when the content is a sequence of LF-terminated
lines, each valid UTF-8, containing no interior LF and not ending in CR;
a missing final newline (and CRLF endings or undecodable bytes) break the
identity because lines are re-terminated with exactly one LF. -/
theorem c2_roundtrip_for_terminated_lines (ls : List (List Nat)) (content : List Nat)
    (hc : content = (ls.map (fun l => l ++ [10])).flatten)
    (h10 : ∀ l ∈ ls, ∀ b ∈ l, b ≠ 10)
    (h13 : ∀ l ∈ ls, l.getLast? ≠ some 13)
    (hv : ∀ l ∈ ls, validUtf8 l = true) :
    catOutput false false content = content := by
  subst hc
  rw [catOutput, file_to_lines_of_valid ls h10 h13 hv, renderAll_plain]

/-- C2 witness: the amended round-trip at the concrete file `a\n`. -/
theorem c2_roundtrip_witness : catOutput false false [97, 10] = [97, 10] :=
  c2_roundtrip_for_terminated_lines [[97]] [97, 10]
    (by decide) (by decide) (by decide) (by decide)

/-- C3 counterexample: the claim states sub-second precision captured by a
`.%3f` format is preserved, but `2000-01-01T00:00:00.500+0000` denotes
946684800500 ms past the epoch while `parse_time` returns the instant
946684800000 ms: `num_seconds()` truncates to whole seconds before the
result is built (src/rtouch/src/main.rs:147), so re-formatting in the same
format yields `.000`, not `.500`. -/
theorem c3_counterexample :
    firstMatch ("2000-01-01T00:00:00.500+0000") = some 946684800500 ∧
    parse_time ("2000-01-01T00:00:00.500+0000") = Except.ok 946684800000 ∧
    (946684800000 : Nat) ≠ 946684800500 := by decide

/-- C3 amended: for instants at or after the epoch, parsing yields the
denoted instant truncated to whole seconds (milliseconds zeroed): the
round trip holds only to one-second resolution, and the milliseconds a
`.%3f` input carries are discarded. -/
theorem c3_roundtrip_truncates_to_seconds (s : String) (ms : Int)
    (h : firstMatch s = some ms) (h0 : 0 ≤ ms) (hlt : ms < 1000 * 2 ^ 64) :
    parse_time s = Except.ok (1000 * (ms.toNat / 1000)) := by
  rw [parse_time, tryFormats_findSome formats (strBytes s) ms h]
  rw [stResultMs_of_nonneg ms h0 hlt]

/-- C3 witness: the amended statement at the counterexample input. -/
theorem c3_roundtrip_witness :
    parse_time ("2000-01-01T00:00:00.500+0000") = Except.ok 946684800000 :=
  (c3_roundtrip_truncates_to_seconds ("2000-01-01T00:00:00.500+0000")
    946684800500 (by decide) (by decide) (by decide)).trans (by decide)

/-- C4: for a missing target path, `update_file`
(src/rtouch/src/main.rs:192-212) creates an empty file and applies the
resolved target timestamps to it when `no_create` is unset (the recursive
call after `File::create` re-opens the new file and calls `set_times`),
and leaves the path absent while reporting no error when `no_create` is
set. -/
theorem c4_create_unless_no_create (fs : FS) (p : String) (t : FileTimes)
    (args : Args) (cstamp : Nat) (hmiss : fs p = none) :
    (args.no_create = false →
      (update_file fs p t args cstamp).1 p =
        some (set_times ⟨[], cstamp, cstamp, true, true⟩ t) ∧
      (set_times ⟨[], cstamp, cstamp, true, true⟩ t).content = [] ∧
      (update_file fs p t args cstamp).2 = none) ∧
    (args.no_create = true →
      (update_file fs p t args cstamp).1 p = none ∧
      (update_file fs p t args cstamp).2 = none) := by
  constructor
  · intro hnc
    refine ⟨?_, rfl, ?_⟩
    · simp [update_file, hmiss, hnc, updFS]
    · simp [update_file, hmiss, hnc]
  · intro hnc
    constructor
    · simp [update_file, hmiss, hnc]
    · simp [update_file, hmiss, hnc]

/-- C4 witness: creating `g` applies the requested times 1/2; with
`--no-create` the path stays absent. -/
theorem c4_create_witness :
    (update_file (fun _ => none) ("g") ⟨some 1, some 2⟩ argsPlain 9).1 ("g") =
      some ⟨[], 1, 2, true, true⟩ ∧
    (update_file (fun _ => none) ("g") ⟨some 1, some 2⟩ argsNoCreate 9).1 ("g") =
      none :=
  ⟨((c4_create_unless_no_create (fun _ => none) ("g") ⟨some 1, some 2⟩
      argsPlain 9 rfl).1 rfl).1.trans (by decide),
   ((c4_create_unless_no_create (fun _ => none) ("g") ⟨some 1, some 2⟩
      argsNoCreate 9 rfl).2 rfl).1⟩

/-- C5: when the explicit `-t` string fails to parse against every format,
`main` reports the failure on stderr and proceeds with the default
behaviour: the resolved `FileTimes` keeps both fields set to the current
time, and every named existing writable file still gets both times set to
`now` (src/rtouch/src/main.rs:52-68). -/
theorem c5_parse_failure_falls_back (now cstamp : Nat) (args : Args) (fs : FS)
    (s : String) (hts : args.time = some s)
    (hfail : parse_time s = Except.error ()) :
    resolveTimes now args fs =
      (⟨some now, some now⟩, ["Error parsing time: " ++ parseTimeErrMsg]) ∧
    (∀ (p : String) (f₀ : FsFile), p ∈ args.files → fs p = some f₀ →
      f₀.writable = true →
      (rtouchMain now cstamp args fs).1 p =
        some (set_times f₀ ⟨some now, some now⟩)) := by
  have hres : resolveTimes now args fs =
      (⟨some now, some now⟩, ["Error parsing time: " ++ parseTimeErrMsg]) := by
    simp [resolveTimes, hts, hfail, FileTimes.new, FileTimes.set_accessed,
      FileTimes.set_modified]
  refine ⟨hres, ?_⟩
  intro p f₀ hmem hex hw
  show runFilesFS (resolveTimes now args fs).1 args cstamp args.files fs p = _
  rw [hres]
  exact runFilesFS_mem ⟨some now, some now⟩ args cstamp p f₀ hw args.files fs hmem hex

/-- C5 witness: `rtouch -t notatime f` with now = 100 reports the parse
failure and sets both times of `f` to 100. -/
theorem c5_fallback_witness :
    resolveTimes 100 argsBadTime wFs =
      (⟨some 100, some 100⟩, ["Error parsing time: " ++ parseTimeErrMsg]) ∧
    (rtouchMain 100 50 argsBadTime wFs).1 ("f") = some ⟨[], 100, 100, true, true⟩ :=
  ⟨(c5_parse_failure_falls_back 100 50 argsBadTime wFs ("notatime") rfl
      (by decide)).1,
   ((c5_parse_failure_falls_back 100 50 argsBadTime wFs ("notatime") rfl
      (by decide)).2 ("f") ⟨[], 5, 7, true, true⟩ (by decide) (by decide)
      rfl).trans (by decide)⟩

/-- C7: with numbering enabled, output line N (0-based index i) is the
width-6 right-aligned decimal of i+1, a space, then the line
(src/rcat/src/main.rs:35-36). -/
theorem c7_numbering_format (content : List Nat) (i : Nat) (l : List Nat)
    (h : (file_to_lines content)[i]? = some l) :
    (outputLines (catOutput true false content))[i]? =
      some (pad6 (i + 1) ++ [32] ++ l) := by
  rw [outputLines_catOutput, renderAll_getElem, h]
  simp [renderCore, List.append_assoc]

/-- C7 witness: the spec's concrete scenario: the file with lines `a`,
`bb`, `ccc` prints as three numbered lines, and the theorem applied at
line index 1 gives `     2 bb`. -/
theorem c7_numbering_witness :
    catOutput true false demoContent = strBytes ("     1 a\n     2 bb\n     3 ccc\n") ∧
    (outputLines (catOutput true false demoContent))[1]? =
      some (pad6 2 ++ [32] ++ [98, 98]) :=
  ⟨by decide, c7_numbering_format demoContent 1 [98, 98] (by decide)⟩

/-- C8: in `file_to_lines` (src/rcat/src/main.rs:70-75) a line whose bytes
fail to decode is silently replaced by the empty string, processing
continues (the line count is preserved), and the per-file run for a
readable file emits no diagnostic and does not exit. -/
theorem c8_decode_failure_silent (number showEnds : Bool) (path : String)
    (content : List Nat) :
    rcatFileRun number showEnds path (Except.ok content) =
      (catOutput number showEnds content, [], false) ∧
    (file_to_lines content).length = (rustLines content).length ∧
    (∀ (i : Nat) (c : List Nat), (rustLines content)[i]? = some c →
      validUtf8 c = false → (file_to_lines content)[i]? = some []) := by
  refine ⟨rfl, by rw [file_to_lines]; exact List.length_map _ _, ?_⟩
  intro i c hc hv
  rw [file_to_lines, List.getElem?_map, hc]
  simp [hv]

/-- C8 witness: the file `0xFF LF a` has an undecodable first line, which
becomes the empty string while the second line survives. -/
theorem c8_decode_witness :
    (file_to_lines [255, 10, 97])[0]? = some [] ∧
    rustLines [255, 10, 97] = [[255], [97]] :=
  ⟨(c8_decode_failure_silent false false ("x") [255, 10, 97]).2.2 0 [255]
      (by decide) (by decide),
   by decide⟩

/-- C10: the target `FileTimes` is resolved once before the per-file loop
(`main` reads the wall clock into `time` a single time at
src/rtouch/src/main.rs:45 and `file_times` is fixed before line 97), so
every named existing writable file ends with the same resolved pair
applied, regardless of its previous times or of the other files named. -/
theorem c10_single_resolution_uniform (now cstamp : Nat) (args : Args)
    (fs : FS) (p : String) (f₀ : FsFile) (hmem : p ∈ args.files)
    (hex : fs p = some f₀) (hw : f₀.writable = true) :
    (rtouchMain now cstamp args fs).1 p =
      some (set_times f₀ (resolveTimes now args fs).1) := by
  show runFilesFS (resolveTimes now args fs).1 args cstamp args.files fs p = _
  exact runFilesFS_mem (resolveTimes now args fs).1 args cstamp p f₀ hw
    args.files fs hmem hex

/-- C10 witness: with two files `f` (times 5/7) and `g` (times 1/2) and
now = 100, both end with the identical pair 100/100. -/
theorem c10_uniform_witness :
    (rtouchMain 100 50 argsTwoFiles wFs2).1 ("f") = some ⟨[], 100, 100, true, true⟩ ∧
    (rtouchMain 100 50 argsTwoFiles wFs2).1 ("g") = some ⟨[], 100, 100, true, true⟩ :=
  ⟨(c10_single_resolution_uniform 100 50 argsTwoFiles wFs2 ("f")
      ⟨[], 5, 7, true, true⟩ (by decide) (by decide) rfl).trans (by decide),
   (c10_single_resolution_uniform 100 50 argsTwoFiles wFs2 ("g")
      ⟨[], 1, 2, true, true⟩ (by decide) (by decide) rfl).trans (by decide)⟩

end GnuLike
